import Mathlib

/-!
Shallow embedding of `litedesk-lib-active_directory`
(`src/litedesk/lib/active_directory/classes/base.py`).

The Python module stores, for every declared attribute, a per-instance
record `{'value': v, 'modified': b}` inside a weak dictionary keyed by the
entity instance.  We model one entity instance's attribute storage as a
function from the attribute's Python-level name to an optional such record
(`Store`): `none` models "the weak dictionary has no entry for this
instance", mirroring `has_key` / `KeyError` behaviour in the source.

Python values appearing in the library are strings and lists of strings
(e.g. the `object_class` preset of `User`); nullability (`None`) is modelled
by wrapping in `Option`.  Exceptions (`ldap.UNWILLING_TO_PERFORM`,
`KeyError`) are modelled with `Except` / `Option` results.
-/

namespace LitedeskAD

/-- A directory attribute value: a scalar string or a list of strings. -/
inductive AdValue where
  | str (s : String)
  | list (vs : List String)
deriving DecidableEq

/-- The per-instance record kept by `BaseAttribute`:
`self.__values[instance] = {'value': value, 'modified': modified}`. -/
structure Entry where
  value : Option AdValue
  modified : Bool
deriving DecidableEq

/-- One entity instance's attribute storage, keyed by the attribute's
Python name.  `none` means the attribute's weak dictionary holds no entry
for this instance. -/
abbrev Store := String → Option Entry

/-- Access policy of an attribute: `BaseAttribute` (mutable),
`ReadOnlyAttribute`, `WriteOnceAttribute`. -/
inductive Policy where
  | mutable
  | readOnly
  | writeOnce
deriving DecidableEq

/-- An attribute declaration: Python name (`attr_name`), directory key
(`ad_key`) and which of the three descriptor classes it was built from. -/
structure Attribute where
  name : String
  ad_key : String
  policy : Policy
deriving DecidableEq

/-- `BaseAttribute.getter`: return `self.__values[instance]['value']`,
or `None` when the dictionary has no entry (`KeyError` branch). -/
def getter (a : Attribute) (s : Store) : Option AdValue :=
  match s a.name with
  | some e => e.value
  | none => none

/-- `BaseAttribute.modified`: `has_key(instance) and values[instance]['modified']`. -/
def modified (a : Attribute) (s : Store) : Bool :=
  match s a.name with
  | some e => e.modified
  | none => false

/-- `self.__values.has_key(instance)`. -/
def hasKey (a : Attribute) (s : Store) : Bool :=
  (s a.name).isSome

/-- `BaseAttribute.raw_set`: store `{'value': value, 'modified': modified}`. -/
def rawSet (a : Attribute) (v : Option AdValue) (m : Bool) (s : Store) : Store :=
  fun k => if k = a.name then some ⟨v, m⟩ else s k

/-- `BaseAttribute.deleter`: pop the entry, ignoring `KeyError`. -/
def deleter (a : Attribute) (s : Store) : Store :=
  fun k => if k = a.name then none else s k

/-- The `setter` of the three descriptor classes.
`BaseAttribute.setter` calls `raw_set(instance, value, True if has_key else False)`;
`ReadOnlyAttribute.setter` always raises `ldap.UNWILLING_TO_PERFORM`;
`WriteOnceAttribute.setter` raises when `self.modified(instance)` holds and
otherwise defers to the base setter. -/
def setter (a : Attribute) (v : Option AdValue) (s : Store) : Except String Store :=
  match a.policy with
  | .mutable => .ok (rawSet a v (hasKey a s) s)
  | .readOnly => .error (a.ad_key ++ " attribute is Read-Only")
  | .writeOnce =>
      if modified a s then
        .error (a.ad_key ++ " attribute is Write-Once and it already has a value")
      else
        .ok (rawSet a v (hasKey a s) s)

/-- `if name in (attr.name, attr.ad_key)` in the metaclass-generated `_raw_set`. -/
def matchKey (n : String) (a : Attribute) : Bool :=
  n == a.name || n == a.ad_key

/-- The lookup loop of `_raw_set`: first declared attribute whose Python
name or directory key equals `name`. -/
def findAttr (attrs : List Attribute) (n : String) : Option Attribute :=
  attrs.find? (matchKey n)

/-- The metaclass-generated `_raw_set(self, name, value, modified)`:
`raw_set` on the first matching attribute, `KeyError` (modelled `none`)
when no attribute matches. -/
def rawSetByName (attrs : List Attribute) (n : String) (v : Option AdValue)
    (m : Bool) (s : Store) : Option Store :=
  (findAttr attrs n).map (fun a => rawSet a v m s)

/-- The metaclass-generated `_moddict` property:
`{attr.ad_key: attr.getter(self) for attr in self._raw_attrs if attr.modified(self)}`. -/
def moddict (attrs : List Attribute) (s : Store) : List (String × Option AdValue) :=
  (attrs.filter (fun a => modified a s)).map (fun a => (a.ad_key, getter a s))

/-- One record of `BaseObject.diff`'s result: the value and modified flag of
each side at the moment the diff was taken. -/
structure DiffEntry where
  selfValue : Option AdValue
  selfModified : Bool
  otherValue : Option AdValue
  otherModified : Bool
deriving DecidableEq

/-- `BaseObject.diff(self, other)`: one record per schema attribute whose
getter values differ, keyed by directory key. -/
def diff (attrs : List Attribute) (s o : Store) : List (String × DiffEntry) :=
  (attrs.filter (fun a => decide (getter a s ≠ getter a o))).map
    (fun a => (a.ad_key, ⟨getter a s, modified a s, getter a o, modified a o⟩))

/-- The loop `for attr in self._raw_attrs: self._raw_set(attr.name,
attr.getter(self), False)`, shared by `update_from_ad` and `save`. -/
def resetModified (attrs : List Attribute) (s : Store) : Option Store :=
  attrs.foldlM (fun st a => rawSetByName attrs a.name (getter a st) false st) s

/-- The body of `update_from_ad`'s second loop, for one diff record
`nd = (directory_key, entry)`: adopt the remote value unmodified when the
local copy was not modified (as recorded in the diff) and the remote value
is non-null; else keep the local value remarked modified when it is
non-null; else do nothing. -/
def diffStep (attrs : List Attribute) (st : Store) (nd : String × DiffEntry) :
    Option Store :=
  if !nd.2.selfModified && nd.2.otherValue.isSome then
    rawSetByName attrs nd.1 nd.2.otherValue false st
  else if nd.2.selfValue.isSome then
    rawSetByName attrs nd.1 nd.2.selfValue true st
  else
    some st

/-- `BaseObject.update_from_ad`.  `remote` is the result of
`self.__class__.search(self._session, query=dn-query)` collapsed to its
first element: `none` models the empty result list, whose `[0]` raises the
`IndexError` that makes the method return `False` with the instance
untouched.  Otherwise: take the diff (of the pre-call state), reset every
attribute's modified flag, then run the per-record resolution loop;
a `none` result models an uncaught `KeyError` from `_raw_set` (never
reached on a well-formed schema). -/
def update_from_ad (attrs : List Attribute) (remote : Option Store) (s : Store) :
    Option (Bool × Store) :=
  match remote with
  | none => some (false, s)
  | some o =>
      (resetModified attrs s).bind (fun s1 =>
        ((diff attrs s o).foldlM (diffStep attrs) s1).map (fun s2 => (true, s2)))

/-- Python attribute access (`self.object_guid`, `self.distinguished_name`)
through the data descriptor of the given Python name; every `BaseObject`
schema declares both names used by `save`/`delete`. -/
def getterByName (attrs : List Attribute) (n : String) (s : Store) : Option AdValue :=
  match attrs.find? (fun a => a.name == n) with
  | some a => getter a s
  | none => none

/-- The fresh-create marking loop of `save`: when `update_from_ad` reported
no remote counterpart, mark every non-null attribute except
`distinguished_name` as modified. -/
def markFreshCreate (attrs : List Attribute) (s : Store) : Option Store :=
  attrs.foldlM (fun st a =>
    if a.name != "distinguished_name" && (getter a st).isSome then
      rawSetByName attrs a.name (getter a st) true st
    else
      some st) s

/-- The state `save` has produced by the time it issues its directory
request: reconciliation, plus fresh-create marking when the reconciliation
found no remote counterpart. -/
def preRequest (attrs : List Attribute) (remote : Option Store) (s : Store) :
    Option Store :=
  match update_from_ad attrs remote s with
  | none => none
  | some (true, s1) => some s1
  | some (false, s1) => markFreshCreate attrs s1

/-- A request issued to the session (`search_st`, `add_s`, `modify_s`,
`delete_s`), carrying the distinguished-name value used. -/
inductive Request where
  | searchReq (dn : Option AdValue)
  | addReq (dn : Option AdValue) (modlist : List (String × Option AdValue))
  | modifyReq (dn : Option AdValue) (modlist : List (Nat × String × Option AdValue))
  | deleteReq (dn : Option AdValue)
deriving DecidableEq

/-- `ldap.MOD_REPLACE`. -/
def MOD_REPLACE : Nat := 2

/-- Is the request one of the directory mutations (`add_s`, `modify_s`,
`delete_s`), as opposed to a read (`search_st`)? -/
def isMutation : Request → Bool
  | .searchReq _ => false
  | _ => true

/-- The session collaborator as seen by one `save`/`delete` run on one
instance: the entry its distinguished-name search finds before the
mutation, whether the mutating call raises (and with which message), and
the entry the post-mutation search finds. -/
structure Session where
  lookup : Option Store
  mutationError : Option String
  lookupAfter : Option Store
deriving Inhabited

/-- Outcome of `save`: the requests issued in order, and either the final
instance state or the propagated error together with the instance state at
the moment the error propagates. -/
inductive SaveResult where
  | ok (trace : List Request) (final : Store)
  | err (trace : List Request) (msg : String) (atRaise : Store)

/-- The requests a `save` issued. -/
def traceOf : SaveResult → List Request
  | .ok tr _ => tr
  | .err tr _ _ => tr

/-- `BaseObject.save`.  Steps of the source, in order: `update_from_ad`
(which issues a search for this instance's distinguished name); on `False`
the fresh-create marking loop; build `modlist` from `_moddict`; issue
`add_s` when `self.object_guid is None`, else `modify_s` with one
`MOD_REPLACE` per `modlist` entry; if the request raises, the error
propagates with the instance in the pre-request state; on success clear
every modified flag and run `update_from_ad` once more (its `search` being
the third request).  The outer `none` models an uncaught `KeyError`. -/
def save (attrs : List Attribute) (sess : Session) (s : Store) :
    Option SaveResult :=
  let dnq := getterByName attrs "distinguished_name" s
  (preRequest attrs sess.lookup s).bind (fun s1 =>
    let modlist := moddict attrs s1
    let dn := getterByName attrs "distinguished_name" s1
    let req :=
      if (getterByName attrs "object_guid" s1).isNone then
        Request.addReq dn modlist
      else
        Request.modifyReq dn (modlist.map (fun p => (MOD_REPLACE, p.1, p.2)))
    match sess.mutationError with
    | some m => some (.err [Request.searchReq dnq, req] m s1)
    | none =>
        (resetModified attrs s1).bind (fun s2 =>
          (update_from_ad attrs sess.lookupAfter s2).map (fun r =>
            .ok [Request.searchReq dnq, req,
                 Request.searchReq (getterByName attrs "distinguished_name" s2)] r.2)))

/-- An entity instance: its attribute storage plus the `parent` reference
(`self.parent`, stored directly on the instance, modelled by an opaque
identifier).  The `_session` reference is passed to the operations that
need it and never reassigned by any method. -/
structure Instance where
  store : Store
  parent : Option String

/-- `BaseObject.delete`: the single statement
`self._session.delete_s(self.distinguished_name)` — one delete request,
no assignment to any instance state. -/
def delete (attrs : List Attribute) (i : Instance) : List Request × Instance :=
  ([Request.deleteReq (getterByName attrs "distinguished_name" i.store)], i)

/-- The store of a freshly allocated instance: no attribute has an entry. -/
def emptyStore : Store := fun _ => none

/-- The field loop of `BaseObject._raw_update`: each supplied `(key, value)`
pair goes through `_raw_set(key, value, False)`; `none` models the
`KeyError` raised when a key matches no attribute. -/
def rawUpdateFields (attrs : List Attribute) (fields : List (String × Option AdValue))
    (s : Store) : Option Store :=
  fields.foldlM (fun st kv => rawSetByName attrs kv.1 kv.2 false st) s

/-- `BaseObject._raw_update(**kwargs)`: pop `parent` (assigning
`self.parent` when present), then run the field loop. -/
def rawUpdate (attrs : List Attribute) (parentArg : Option String)
    (fields : List (String × Option AdValue)) (i : Instance) : Option Instance :=
  let i1 : Instance :=
    match parentArg with
    | some p => ⟨i.store, some p⟩
    | none => i
  (rawUpdateFields attrs fields i1.store).map (fun st => ⟨st, i1.parent⟩)

/-- `BaseObject.__init__(self, session, **kwargs)`: bind the session, then
`self._raw_update(**kwargs)` followed by `self._raw_update(**self._preset)`
— caller-supplied fields first, the type-level preset second. -/
def init (attrs : List Attribute) (preset : List (String × Option AdValue))
    (parentArg : Option String) (fields : List (String × Option AdValue)) :
    Option Instance :=
  (rawUpdate attrs parentArg fields ⟨emptyStore, none⟩).bind
    (fun i1 => rawUpdate attrs none preset i1)

/-- The schema invariant (spec §3): within one entity type's full attribute
set, Python names are unique, directory keys are unique, and no attribute's
name collides with another attribute's directory key, so any lookup key
identifies at most one attribute.  Holds for every schema in the source. -/
def WellFormed (attrs : List Attribute) : Prop :=
  attrs.Nodup ∧
    ∀ a ∈ attrs, ∀ b ∈ attrs,
      (a.name = b.name ∨ a.name = b.ad_key ∨ a.ad_key = b.name ∨ a.ad_key = b.ad_key) →
        a = b

instance (attrs : List Attribute) : Decidable (WellFormed attrs) := by
  unfold WellFormed
  infer_instance

/-! ### The concrete schemas of the source -/

/-- `object_class = WriteOnceAttribute('objectClass')`. -/
def object_class : Attribute := ⟨"object_class", "objectClass", .writeOnce⟩

/-- `object_guid = ReadOnlyAttribute('objectGUID')`. -/
def object_guid : Attribute := ⟨"object_guid", "objectGUID", .readOnly⟩

/-- `distinguished_name = WriteOnceAttribute('distinguishedName')`. -/
def distinguished_name : Attribute := ⟨"distinguished_name", "distinguishedName", .writeOnce⟩

/-- `instance_type = WriteOnceAttribute('instanceType')`. -/
def instance_type : Attribute := ⟨"instance_type", "instanceType", .writeOnce⟩

/-- `object_category = WriteOnceAttribute('objectCategory')`. -/
def object_category : Attribute := ⟨"object_category", "objectCategory", .writeOnce⟩

/-- `ds_core_propagation_data = ReadOnlyAttribute('dSCorePropagationData')`. -/
def ds_core_propagation_data : Attribute :=
  ⟨"ds_core_propagation_data", "dSCorePropagationData", .readOnly⟩

/-- `name = BaseAttribute('name')`. -/
def name_attribute : Attribute := ⟨"name", "name", .mutable⟩

/-- `usn_created = ReadOnlyAttribute('uSNCreated')`. -/
def usn_created : Attribute := ⟨"usn_created", "uSNCreated", .readOnly⟩

/-- `usn_changed = ReadOnlyAttribute('uSNChanged')`. -/
def usn_changed : Attribute := ⟨"usn_changed", "uSNChanged", .readOnly⟩

/-- `when_created = ReadOnlyAttribute('whenCreated')`. -/
def when_created : Attribute := ⟨"when_created", "whenCreated", .readOnly⟩

/-- `when_changed = ReadOnlyAttribute('whenChanged')`. -/
def when_changed : Attribute := ⟨"when_changed", "whenChanged", .readOnly⟩

/-- The attribute set of `BaseObject`, in declaration order. -/
def baseObjectAttrs : List Attribute :=
  [object_class, object_guid, distinguished_name, instance_type, object_category,
   ds_core_propagation_data, name_attribute, usn_created, usn_changed,
   when_created, when_changed]

/-- `ou = BaseAttribute('ou')` of `Company`. -/
def ou_attribute : Attribute := ⟨"ou", "ou", .mutable⟩

/-- The attribute set of `Company`: `BaseObject`'s attributes plus `ou`. -/
def companyAttrs : List Attribute := baseObjectAttrs ++ [ou_attribute]

/-- `Company._preset = {'object_class': 'organizationalUnit'}`. -/
def companyPreset : List (String × Option AdValue) :=
  [("object_class", some (AdValue.str "organizationalUnit"))]

/-- `BaseObject._base_search_query`. -/
def BaseObject_base_search_query : String := "(objectClass=*)"

/-- `Company._base_search_query` (a Python triple-quoted string; the
newlines and indentation are part of the value). -/
def Company_base_search_query : String :=
  "(&\n        (objectClass=organizationalUnit)\n        (instanceType=4)\n        (!(isCriticalSystemObject=TRUE))\n    )"

/-- `BaseObject.concat_search_query(a, b)`. -/
def concat_search_query (a b : String) : String :=
  "(&" ++ a ++ b ++ ")"

/-- The expression `super(BaseObject).base_search_query()` inside
`BaseObject.base_search_query`: `super(BaseObject)` is an unbound `super`
object, and attribute lookup on an unbound super raises `AttributeError`
for any name, so this lookup never produces a value. -/
def superBaseObject_base_search_query : Option String := none

/-- `BaseObject.base_search_query(cls)`: try to AND the ancestor's filter
with the class's own fragment, fall back to the own fragment on
`AttributeError`.  Because the `super(BaseObject)` lookup always raises,
the fallback branch is the one that always runs. -/
def base_search_query (own : String) : String :=
  match superBaseObject_base_search_query with
  | some anc => concat_search_query anc own
  | none => own

/-- Modelled from the spec: the effective base search filter the spec
describes for a type with an ancestor — the ancestor's filter combined by
logical AND with the type's own fragment. -/
def base_search_query_spec (ancestor own : String) : String :=
  concat_search_query ancestor own

/-! ### Concrete fixtures used by counterexamples and witnesses -/

/-- A `Company` constructed as in the test-suite:
`Company(self.session, ou='test_company')` (presets applied by `__init__`). -/
def c2Pre : Store :=
  match init companyAttrs companyPreset none [("ou", some (AdValue.str "test_company"))] with
  | some i => i.store
  | none => emptyStore

/-- A session whose search finds no entry and whose mutating call raises. -/
def c2Sess : Session := ⟨none, some "ALREADY_EXISTS", none⟩

/-- The request trace of the failing `save` on `c2Pre`. -/
def c2Trace : List Request :=
  match save companyAttrs c2Sess c2Pre with
  | some (.err tr _ _) => tr
  | _ => []

/-- The instance state at the moment the failing `save` propagates its error. -/
def c2AtRaise : Store :=
  match save companyAttrs c2Sess c2Pre with
  | some (.err _ _ st) => st
  | _ => emptyStore

/-- Local instance state for the C7 counterexample: `name` was locally set
to `None` after having held a value (`self.name = None` marks it modified),
reachable through the mutable setter. -/
def c7Local : Store := rawSet name_attribute none true emptyStore

/-- Remote counterpart for the C7 counterexample: `name` holds `'v'`. -/
def c7Remote : Store := rawSet name_attribute (some (AdValue.str "v")) false emptyStore

/-- Local instance state for the C7 witness: `name` locally edited to a
non-null value, so the idempotence proviso holds. -/
def c7wLocal : Store := rawSet name_attribute (some (AdValue.str "x")) true emptyStore

/-- Remote counterpart for the C7 witness. -/
def c7wRemote : Store := rawSet name_attribute (some (AdValue.str "v")) false emptyStore

/-- State after the first `update_from_ad` of the C7 witness run. -/
def c7wS1 : Store :=
  match update_from_ad baseObjectAttrs (some c7wRemote) c7wLocal with
  | some r => r.2
  | none => emptyStore

/-- State after the second `update_from_ad` of the C7 witness run. -/
def c7wS2 : Store :=
  match update_from_ad baseObjectAttrs (some c7wRemote) c7wS1 with
  | some r => r.2
  | none => emptyStore

/-- Local instance for the C1 witness: a locally modified `name`, a never
set `usn_created`, and an `ou` equal on both sides. -/
def c1Local : Store :=
  rawSet ou_attribute (some (AdValue.str "eng")) false
    (rawSet name_attribute (some (AdValue.str "local")) true emptyStore)

/-- Remote counterpart for the C1 witness. -/
def c1Remote : Store :=
  rawSet ou_attribute (some (AdValue.str "eng")) false
    (rawSet usn_created (some (AdValue.str "42")) false
      (rawSet name_attribute (some (AdValue.str "remote")) false emptyStore))

/-- Result state of `update_from_ad` in the C1 witness run. -/
def c1After : Store :=
  match update_from_ad companyAttrs (some c1Remote) c1Local with
  | some r => r.2
  | none => emptyStore

/-- Pre-save state for the C8 witness: a fresh `Company` with an `ou`. -/
def c8Pre : Store :=
  match init companyAttrs companyPreset none [("ou", some (AdValue.str "eng"))] with
  | some i => i.store
  | none => emptyStore

/-- A session whose searches find nothing and whose mutation succeeds. -/
def c8Sess : Session := ⟨none, none, none⟩

/-- The result of the C8 witness `save` run. -/
def c8Result : SaveResult :=
  match save companyAttrs c8Sess c8Pre with
  | some r => r
  | none => .ok [] emptyStore

/-- The pre-request state of the C8 witness `save` run. -/
def c8S1 : Store :=
  match preRequest companyAttrs c8Sess.lookup c8Pre with
  | some st => st
  | none => emptyStore

/-- Instance produced by the C5 witness construction: a `BaseObject` given
a value for the read-only `object_guid` field. -/
def c5Inst : Instance :=
  match init baseObjectAttrs [] none [("object_guid", some (AdValue.str "G1"))] with
  | some i => i
  | none => ⟨emptyStore, none⟩

/-- Instance produced by the C6 witness construction: a `Company` whose
caller supplies `object_class`, which the preset also defines. -/
def c6Inst : Instance :=
  match init companyAttrs companyPreset none [("object_class", some (AdValue.str "X"))] with
  | some i => i
  | none => ⟨emptyStore, none⟩

end LitedeskAD

namespace LitedeskAD

/-! ### Pointwise lemmas about the attribute store -/

theorem rawSet_apply (a : Attribute) (v : Option AdValue) (m : Bool) (s : Store)
    (k : String) : rawSet a v m s k = if k = a.name then some ⟨v, m⟩ else s k := rfl

theorem getter_rawSet (a b : Attribute) (v : Option AdValue) (m : Bool) (s : Store) :
    getter a (rawSet b v m s) = if a.name = b.name then v else getter a s := by
  unfold getter rawSet
  by_cases h : a.name = b.name <;> simp [h]

theorem modified_rawSet (a b : Attribute) (v : Option AdValue) (m : Bool) (s : Store) :
    modified a (rawSet b v m s) = if a.name = b.name then m else modified a s := by
  unfold modified rawSet
  by_cases h : a.name = b.name <;> simp [h]

theorem hasKey_rawSet (a b : Attribute) (v : Option AdValue) (m : Bool) (s : Store) :
    hasKey a (rawSet b v m s) = if a.name = b.name then true else hasKey a s := by
  unfold hasKey rawSet
  by_cases h : a.name = b.name <;> simp [h]

theorem getter_eq_of_entry {a : Attribute} {s : Store} {e : Entry}
    (h : s a.name = some e) : getter a s = e.value := by
  unfold getter; rw [h]

theorem modified_eq_of_entry {a : Attribute} {s : Store} {e : Entry}
    (h : s a.name = some e) : modified a s = e.modified := by
  unfold modified; rw [h]

/-! ### Lookup resolution on a well-formed schema -/

theorem matchKey_iff {n : String} {a : Attribute} :
    matchKey n a = true ↔ n = a.name ∨ n = a.ad_key := by
  simp [matchKey]

theorem wf_match_unique {attrs : List Attribute} (hwf : WellFormed attrs)
    {a b : Attribute} {n : String} (ha : a ∈ attrs) (hb : b ∈ attrs)
    (hma : matchKey n a = true) (hmb : matchKey n b = true) : a = b := by
  rcases matchKey_iff.mp hma with h1 | h1 <;> rcases matchKey_iff.mp hmb with h2 | h2 <;>
    exact hwf.2 a ha b hb (by subst h1; simp [h2])

theorem find_first_unique {n : String} :
    ∀ {l : List Attribute} {a : Attribute}, a ∈ l → matchKey n a = true →
      (∀ b ∈ l, matchKey n b = true → b = a) → l.find? (matchKey n) = some a := by
  intro l
  induction l with
  | nil => intro a ha; cases ha
  | cons c t ih =>
      intro a ha hm hu
      by_cases hc : matchKey n c = true
      · rw [List.find?_cons_of_pos _ hc, hu c (List.mem_cons_self c t) hc]
      · rw [List.find?_cons_of_neg _ hc]
        rcases List.mem_cons.mp ha with rfl | hat
        · exact absurd hm hc
        · exact ih hat hm (fun b2 hb => hu b2 (List.mem_cons_of_mem c hb))

theorem findAttr_of_mem {attrs : List Attribute} (hwf : WellFormed attrs)
    {a : Attribute} (ha : a ∈ attrs) {n : String} (hm : matchKey n a = true) :
    findAttr attrs n = some a :=
  find_first_unique ha hm (fun _ hb hmb => wf_match_unique hwf hb ha hmb hm)

theorem findAttr_name {attrs : List Attribute} (hwf : WellFormed attrs)
    {a : Attribute} (ha : a ∈ attrs) : findAttr attrs a.name = some a :=
  findAttr_of_mem hwf ha (by simp [matchKey])

theorem findAttr_ad_key {attrs : List Attribute} (hwf : WellFormed attrs)
    {a : Attribute} (ha : a ∈ attrs) : findAttr attrs a.ad_key = some a :=
  findAttr_of_mem hwf ha (by simp [matchKey])

theorem findAttr_mem {attrs : List Attribute} {n : String} {c : Attribute}
    (h : findAttr attrs n = some c) : c ∈ attrs :=
  List.mem_of_find?_eq_some h

theorem name_ne_of_ne {attrs : List Attribute} (hwf : WellFormed attrs)
    {a b : Attribute} (ha : a ∈ attrs) (hb : b ∈ attrs) (hne : a ≠ b) :
    a.name ≠ b.name := fun h => hne (hwf.2 a ha b hb (Or.inl h))

/-! ### The `_raw_update` field loop -/

theorem rawSetByName_some {attrs : List Attribute} {n : String} {c : Attribute}
    (hc : findAttr attrs n = some c) (v : Option AdValue) (m : Bool) (s : Store) :
    rawSetByName attrs n v m s = some (rawSet c v m s) := by
  rw [rawSetByName, hc]; rfl

theorem rawSetByName_none {attrs : List Attribute} {n : String}
    (hc : findAttr attrs n = none) (v : Option AdValue) (m : Bool) (s : Store) :
    rawSetByName attrs n v m s = none := by
  rw [rawSetByName, hc]; rfl

theorem fields_fold_frame {attrs : List Attribute} (hwf : WellFormed attrs)
    {a : Attribute} (ha : a ∈ attrs) :
    ∀ (fields : List (String × Option AdValue)) (s s1 : Store),
      rawUpdateFields attrs fields s = some s1 →
      (∀ kv ∈ fields, findAttr attrs kv.1 ≠ some a) →
      s1 a.name = s a.name := by
  intro fields
  induction fields with
  | nil =>
      intro s s1 h _
      rw [rawUpdateFields, List.foldlM_nil] at h
      simp only [Option.pure_def, Option.some.injEq] at h
      rw [h]
  | cons kv t ih =>
      intro s s1 h hnone
      rw [rawUpdateFields, List.foldlM_cons] at h
      rcases hc : findAttr attrs kv.1 with _ | c
      · rw [rawSetByName_none hc] at h
        exact absurd h (by simp)
      · rw [rawSetByName_some hc] at h
        simp only [Option.bind_eq_bind, Option.some_bind] at h
        have hca : c ≠ a := fun hcae =>
          (hnone kv (List.mem_cons_self kv t)) (hcae ▸ hc)
        have hname : a.name ≠ c.name :=
          name_ne_of_ne hwf ha (findAttr_mem hc) (fun h1 => hca h1.symm)
        have ht := ih (rawSet c kv.2 false s) s1 h
          (fun p hp => hnone p (List.mem_cons_of_mem kv hp))
        rw [ht, rawSet_apply, if_neg hname]

theorem fields_fold_last {attrs : List Attribute} (hwf : WellFormed attrs)
    {a : Attribute} (ha : a ∈ attrs)
    (f1 f2 : List (String × Option AdValue)) (k : String) (v : Option AdValue)
    (hk : findAttr attrs k = some a)
    (h2 : ∀ kv ∈ f2, findAttr attrs kv.1 ≠ some a)
    (s s1 : Store)
    (h : rawUpdateFields attrs (f1 ++ (k, v) :: f2) s = some s1) :
    s1 a.name = some ⟨v, false⟩ := by
  rw [rawUpdateFields, List.foldlM_append] at h
  rcases hA : List.foldlM (fun st kv => rawSetByName attrs kv.1 kv.2 false st) s f1
    with _ | sA
  · rw [hA] at h; exact absurd h (by simp)
  · rw [hA] at h
    simp only [Option.bind_eq_bind, Option.some_bind, List.foldlM_cons] at h
    rw [rawSetByName_some hk] at h
    simp only [Option.bind_eq_bind, Option.some_bind] at h
    have hframe := fields_fold_frame hwf ha f2 (rawSet a v false sA) s1 h h2
    rw [hframe, rawSet_apply, if_pos rfl]

theorem rawUpdate_parent_none (attrs : List Attribute)
    (fields : List (String × Option AdValue)) (st : Store) (p : Option String) :
    rawUpdate attrs none fields ⟨st, p⟩ =
      (rawUpdateFields attrs fields st).map (fun s2 => (⟨s2, p⟩ : Instance)) := rfl

theorem rawUpdate_parent_some (attrs : List Attribute) (q : String)
    (fields : List (String × Option AdValue)) (st : Store) (p : Option String) :
    rawUpdate attrs (some q) fields ⟨st, p⟩ =
      (rawUpdateFields attrs fields st).map (fun s2 => (⟨s2, some q⟩ : Instance)) := rfl

theorem init_store {attrs : List Attribute} {preset : List (String × Option AdValue)}
    {parentArg : Option String} {fields : List (String × Option AdValue)} {i : Instance}
    (h : init attrs preset parentArg fields = some i) :
    ∃ st1, rawUpdateFields attrs fields emptyStore = some st1 ∧
      rawUpdateFields attrs preset st1 = some i.store := by
  rw [init] at h
  rcases parentArg with _ | q
  · rw [rawUpdate_parent_none] at h
    rcases h1 : rawUpdateFields attrs fields emptyStore with _ | st1
    · rw [h1] at h; exact absurd h (by simp)
    · rw [h1] at h
      simp only [Option.map_some', Option.some_bind] at h
      rw [rawUpdate_parent_none] at h
      rcases h2 : rawUpdateFields attrs preset st1 with _ | st2
      · rw [h2] at h; exact absurd h (by simp)
      · rw [h2] at h
        simp only [Option.map_some', Option.some.injEq] at h
        exact ⟨st1, rfl, by rw [← h]; exact h2⟩
  · rw [rawUpdate_parent_some] at h
    rcases h1 : rawUpdateFields attrs fields emptyStore with _ | st1
    · rw [h1] at h; exact absurd h (by simp)
    · rw [h1] at h
      simp only [Option.map_some', Option.some_bind] at h
      rw [rawUpdate_parent_none] at h
      rcases h2 : rawUpdateFields attrs preset st1 with _ | st2
      · rw [h2] at h; exact absurd h (by simp)
      · rw [h2] at h
        simp only [Option.map_some', Option.some.injEq] at h
        exact ⟨st1, rfl, by rw [← h]; exact h2⟩

/-! ### C5, C6: entity construction -/

/-- **C5** (counterexample).  The claim says constructing with a value for
a `ReadOnly` attribute fails with `PolicyViolation` and that accepted
fields are marked modified; the code's `_raw_update` writes caller fields
through `raw_set(key, value, False)`, so the `object_guid` value is
accepted and stored with `modified = false`. -/
theorem init_readOnly_accepted :
    (match init baseObjectAttrs [] none [("object_guid", some (AdValue.str "G1"))] with
     | some i => some (getter object_guid i.store, modified object_guid i.store)
     | none => none) = some (some (AdValue.str "G1"), false) := rfl

/-- **C5** (amended).  Entity construction bypasses the policy-checked
setter: every caller-supplied field — including one naming a `ReadOnly`
attribute, whatever the policy — is written through `raw_set` with
`modified = false`, so construction does not fail on policy and no
caller-supplied field ends construction marked modified.  (The supplied
value survives when no later field and no preset entry names the same
attribute; the last write wins.) -/
theorem init_bypasses_policy {attrs : List Attribute} (hwf : WellFormed attrs)
    {a : Attribute} (ha : a ∈ attrs)
    (f1 f2 : List (String × Option AdValue)) (k : String) (v : Option AdValue)
    (hk : findAttr attrs k = some a)
    (h2 : ∀ kv ∈ f2, findAttr attrs kv.1 ≠ some a)
    (preset : List (String × Option AdValue))
    (hp : ∀ kv ∈ preset, findAttr attrs kv.1 ≠ some a)
    (parentArg : Option String) (i : Instance)
    (h : init attrs preset parentArg (f1 ++ (k, v) :: f2) = some i) :
    getter a i.store = v ∧ modified a i.store = false := by
  obtain ⟨st1, h1, h2p⟩ := init_store h
  have hlast : st1 a.name = some ⟨v, false⟩ :=
    fields_fold_last hwf ha f1 f2 k v hk h2 _ st1 h1
  have hfr : i.store a.name = st1 a.name :=
    fields_fold_frame hwf ha preset st1 i.store h2p hp
  have hstore : i.store a.name = some ⟨v, false⟩ := by rw [hfr, hlast]
  exact ⟨getter_eq_of_entry hstore, modified_eq_of_entry hstore⟩

/-- Witness for the amended C5 theorem: a `BaseObject` constructed with a
value for the read-only `object_guid` accepts and stores it unmodified. -/
theorem init_bypasses_policy_witness :
    WellFormed baseObjectAttrs ∧ object_guid ∈ baseObjectAttrs ∧
    object_guid.policy = .readOnly ∧
    findAttr baseObjectAttrs "object_guid" = some object_guid ∧
    init baseObjectAttrs [] none [("object_guid", some (AdValue.str "G1"))] = some c5Inst ∧
    getter object_guid c5Inst.store = some (AdValue.str "G1") ∧
    modified object_guid c5Inst.store = false := by
  have hwf : WellFormed baseObjectAttrs := by decide
  have ha : object_guid ∈ baseObjectAttrs := by decide
  have hk : findAttr baseObjectAttrs "object_guid" = some object_guid := rfl
  have h : init baseObjectAttrs [] none
      [("object_guid", some (AdValue.str "G1"))] = some c5Inst := by rfl
  exact ⟨hwf, ha, rfl, hk, h,
    init_bypasses_policy hwf ha [] [] "object_guid" (some (AdValue.str "G1")) hk
      (by simp) [] (by simp) none c5Inst h⟩

/-- **C6** (counterexample).  The claim says a field present in both the
presets and the caller's fields ends construction with the caller's value;
`__init__` runs `_raw_update(**kwargs)` first and `_raw_update(**self._preset)`
second, so the `Company` preset `object_class = 'organizationalUnit'`
overwrites the caller-supplied `'X'`. -/
theorem init_caller_value_overridden :
    (match init companyAttrs companyPreset none
        [("object_class", some (AdValue.str "X"))] with
     | some i => some (getter object_class i.store)
     | none => none) = some (some (AdValue.str "organizationalUnit")) ∧
    some (some (AdValue.str "organizationalUnit")) ≠ some (some (AdValue.str "X")) :=
  ⟨rfl, by decide⟩

/-- **C6** (amended).  During construction the caller-supplied fields are
applied first and the type-level presets afterwards; hence for any field
name present in both, the instance ends construction holding the preset's
value (stored with `modified = false`), regardless of the caller fields. -/
theorem init_preset_overrides {attrs : List Attribute} (hwf : WellFormed attrs)
    {a : Attribute} (ha : a ∈ attrs)
    (p1 p2 : List (String × Option AdValue)) (k : String) (v : Option AdValue)
    (hk : findAttr attrs k = some a)
    (h2 : ∀ kv ∈ p2, findAttr attrs kv.1 ≠ some a)
    (parentArg : Option String) (fields : List (String × Option AdValue)) (i : Instance)
    (h : init attrs (p1 ++ (k, v) :: p2) parentArg fields = some i) :
    getter a i.store = v ∧ modified a i.store = false := by
  obtain ⟨st1, _, h2p⟩ := init_store h
  have hstore : i.store a.name = some ⟨v, false⟩ :=
    fields_fold_last hwf ha p1 p2 k v hk h2 st1 i.store h2p
  exact ⟨getter_eq_of_entry hstore, modified_eq_of_entry hstore⟩

/-- Witness for the amended C6 theorem: the `Company` preset value for
`object_class` is what the constructed instance holds, although the caller
supplied a different value for the same field. -/
theorem init_preset_overrides_witness :
    WellFormed companyAttrs ∧ object_class ∈ companyAttrs ∧
    companyPreset = [("object_class", some (AdValue.str "organizationalUnit"))] ∧
    init companyAttrs companyPreset none
        [("object_class", some (AdValue.str "X"))] = some c6Inst ∧
    getter object_class c6Inst.store = some (AdValue.str "organizationalUnit") ∧
    modified object_class c6Inst.store = false := by
  have hwf : WellFormed companyAttrs := by decide
  have ha : object_class ∈ companyAttrs := by decide
  have hk : findAttr companyAttrs "object_class" = some object_class := rfl
  have h : init companyAttrs companyPreset none
      [("object_class", some (AdValue.str "X"))] = some c6Inst := by rfl
  exact ⟨hwf, ha, rfl, h,
    init_preset_overrides hwf ha [] [] "object_class"
      (some (AdValue.str "organizationalUnit")) hk (by simp) none
      [("object_class", some (AdValue.str "X"))] c6Inst h⟩

/-! ### C3, C4: attribute access policies -/

/-- **C3** (counterexample).  The claim says every set after the first on a
`WriteOnce` attribute fails; on a fresh instance the second set succeeds,
because the first set recorded `modified = False` (no prior entry in the
weak dictionary) and `WriteOnceAttribute.setter` only checks `modified`. -/
theorem writeOnce_second_set_succeeds :
    (match setter object_class (some (AdValue.str "a")) emptyStore with
     | .ok s1 =>
        (match setter object_class (some (AdValue.str "b")) s1 with
         | .ok _ => true
         | .error _ => false)
     | .error _ => false) = true := rfl

/-- **C3** (amended).  A `WriteOnce` set succeeds exactly when the
attribute's `modified` flag is false.  On an instance with no entry for the
attribute, the first set succeeds and records `modified = false`, so a
second set also succeeds (recording `modified = true`), and only the third
and later sets fail with `ldap.UNWILLING_TO_PERFORM`. -/
theorem writeOnce_three_sets (a : Attribute) (hp : a.policy = .writeOnce)
    (s : Store) (hs : s a.name = none) (v1 v2 v3 : Option AdValue) :
    ∃ s1 s2, setter a v1 s = .ok s1 ∧ modified a s1 = false ∧
      setter a v2 s1 = .ok s2 ∧ modified a s2 = true ∧
      setter a v3 s2 =
        .error (a.ad_key ++ " attribute is Write-Once and it already has a value") := by
  have hm : modified a s = false := by unfold modified; rw [hs]
  have hk : hasKey a s = false := by unfold hasKey; rw [hs]; rfl
  refine ⟨rawSet a v1 false s, rawSet a v2 true (rawSet a v1 false s), ?_, ?_, ?_, ?_, ?_⟩
  · simp [setter, hp, hm, hk]
  · simp [modified_rawSet]
  · simp [setter, hp, modified_rawSet, hasKey_rawSet]
  · simp [modified_rawSet]
  · simp [setter, hp, modified_rawSet]

/-- Witness for the amended C3 theorem at `object_class` on a fresh store. -/
theorem writeOnce_three_sets_witness :
    object_class.policy = .writeOnce ∧ emptyStore object_class.name = none ∧
    (∃ s1 s2, setter object_class (some (AdValue.str "a")) emptyStore = .ok s1 ∧
      modified object_class s1 = false ∧
      setter object_class (some (AdValue.str "b")) s1 = .ok s2 ∧
      modified object_class s2 = true ∧
      setter object_class (some (AdValue.str "c")) s2 =
        .error (object_class.ad_key ++ " attribute is Write-Once and it already has a value")) :=
  ⟨rfl, rfl, writeOnce_three_sets object_class rfl emptyStore rfl _ _ _⟩

/-- **C4** (counterexample).  The claim says a successful mutable set leaves
`modified = true`; the first-ever set on an instance records
`modified = False` because `BaseAttribute.setter` passes
`True if has_key else False` and there was no prior entry. -/
theorem mutable_first_set_unmodified :
    (match setter name_attribute (some (AdValue.str "n")) emptyStore with
     | .ok s1 => some (getter name_attribute s1, modified name_attribute s1)
     | .error _ => none) = some (some (AdValue.str "n"), false) := rfl

/-- **C4** (amended).  For a mutable attribute every set succeeds, the
getter afterwards returns the set value, and the `modified` flag equals
`has_key` of the pre-set state: `true` exactly when the attribute already
had an entry for this instance, and in particular `false` on the first-ever
set.  The getter is embedded as a pure function of the store, reflecting
that the source getter only reads. -/
theorem mutable_set_records_hasKey (a : Attribute) (hp : a.policy = .mutable)
    (v : Option AdValue) (s : Store) :
    ∃ s1, setter a v s = .ok s1 ∧ getter a s1 = v ∧ modified a s1 = hasKey a s := by
  refine ⟨rawSet a v (hasKey a s) s, ?_, ?_, ?_⟩
  · simp [setter, hp]
  · simp [getter_rawSet]
  · simp [modified_rawSet]

/-- Witness for the amended C4 theorem at `name` over a store that already
holds an entry for it. -/
theorem mutable_set_records_hasKey_witness :
    name_attribute.policy = .mutable ∧
    (∃ s1, setter name_attribute (some (AdValue.str "y"))
        (rawSet name_attribute (some (AdValue.str "x")) false emptyStore) = .ok s1 ∧
      getter name_attribute s1 = some (AdValue.str "y") ∧
      modified name_attribute s1 =
        hasKey name_attribute (rawSet name_attribute (some (AdValue.str "x")) false emptyStore)) :=
  ⟨rfl, mutable_set_records_hasKey name_attribute rfl _ _⟩

/-! ### The reset loop of `update_from_ad` and `save` -/

theorem getter_name_congr {a b : Attribute} (h : b.name = a.name) (s : Store) :
    getter b s = getter a s := by
  unfold getter; rw [h]

theorem getter_congr_store {a : Attribute} {s t : Store} (h : s a.name = t a.name) :
    getter a s = getter a t := by
  unfold getter; rw [h]

theorem modified_congr_store {a : Attribute} {s t : Store} (h : s a.name = t a.name) :
    modified a s = modified a t := by
  unfold modified; rw [h]

theorem getter_rawSet_keep (a b : Attribute) (m : Bool) (s : Store) :
    getter b (rawSet a (getter a s) m s) = getter b s := by
  rw [getter_rawSet]
  by_cases h : b.name = a.name
  · rw [if_pos h, getter_name_congr h]
  · rw [if_neg h]

theorem reset_fold_spec {attrs : List Attribute} (hwf : WellFormed attrs) :
    ∀ (l : List Attribute), (∀ a ∈ l, a ∈ attrs) → ∀ (s : Store),
      ∃ s1, List.foldlM
          (fun st a => rawSetByName attrs a.name (getter a st) false st) s l = some s1 ∧
        (∀ b : Attribute, getter b s1 = getter b s) ∧
        (∀ b ∈ l, modified b s1 = false) ∧
        (∀ k : String, (∀ a ∈ l, a.name ≠ k) → s1 k = s k) := by
  intro l
  induction l with
  | nil =>
      intro _ s
      exact ⟨s, by simp, fun b => rfl, by simp, fun k _ => rfl⟩
  | cons c t ih =>
      intro hl s
      have hc : c ∈ attrs := hl c (List.mem_cons_self c t)
      have hfind := findAttr_name hwf hc
      obtain ⟨s1, hfold, hget, hmod, hframe⟩ :=
        ih (fun a ha => hl a (List.mem_cons_of_mem c ha)) (rawSet c (getter c s) false s)
      refine ⟨s1, ?_, ?_, ?_, ?_⟩
      · rw [List.foldlM_cons, rawSetByName_some hfind]
        simp only [Option.bind_eq_bind, Option.some_bind]
        exact hfold
      · intro b
        rw [hget b, getter_rawSet_keep]
      · intro b hb
        rcases List.mem_cons.mp hb with rfl | hbt
        · by_cases hmem : ∃ a2 ∈ t, a2.name = b.name
          · obtain ⟨a2, ha2t, ha2n⟩ := hmem
            have ha2 : a2 = b :=
              hwf.2 a2 (hl a2 (List.mem_cons_of_mem _ ha2t)) b hc (Or.inl ha2n)
            exact ha2 ▸ hmod a2 ha2t
          · push_neg at hmem
            have hsb : s1 b.name = some ⟨getter b s, false⟩ := by
              rw [hframe b.name (fun a2 hat => hmem a2 hat), rawSet_apply, if_pos rfl]
            exact modified_eq_of_entry hsb
        · exact hmod b hbt
      · intro k hk
        rw [hframe k (fun a2 hat => hk a2 (List.mem_cons_of_mem c hat)), rawSet_apply,
          if_neg (fun he : k = c.name => hk c (List.mem_cons_self c t) he.symm)]

theorem resetModified_spec {attrs : List Attribute} (hwf : WellFormed attrs) (s : Store) :
    ∃ s1, resetModified attrs s = some s1 ∧
      (∀ b : Attribute, getter b s1 = getter b s) ∧
      (∀ b ∈ attrs, modified b s1 = false) ∧
      (∀ k : String, (∀ a ∈ attrs, a.name ≠ k) → s1 k = s k) :=
  reset_fold_spec hwf attrs (fun _ h => h) s

/-! ### The resolution loop of `update_from_ad` -/

theorem diffStep_adopt {attrs : List Attribute} {nd : String × DiffEntry}
    (h1 : (!nd.2.selfModified && nd.2.otherValue.isSome) = true)
    {c : Attribute} (hc : findAttr attrs nd.1 = some c) (st : Store) :
    diffStep attrs st nd = some (rawSet c nd.2.otherValue false st) := by
  rw [diffStep, if_pos h1, rawSetByName_some hc]

theorem diffStep_keep {attrs : List Attribute} {nd : String × DiffEntry}
    (h1 : (!nd.2.selfModified && nd.2.otherValue.isSome) = false)
    (h2 : nd.2.selfValue.isSome = true)
    {c : Attribute} (hc : findAttr attrs nd.1 = some c) (st : Store) :
    diffStep attrs st nd = some (rawSet c nd.2.selfValue true st) := by
  rw [diffStep, if_neg (by simp [h1]), if_pos h2, rawSetByName_some hc]

theorem diffStep_skip {attrs : List Attribute} {nd : String × DiffEntry}
    (h1 : (!nd.2.selfModified && nd.2.otherValue.isSome) = false)
    (h2 : nd.2.selfValue.isSome = false) (st : Store) :
    diffStep attrs st nd = some st := by
  rw [diffStep, if_neg (by simp [h1]), if_neg (by simp [h2])]

theorem diffStep_frame {attrs : List Attribute} (hwf : WellFormed attrs)
    {a c : Attribute} (ha : a ∈ attrs) (hca : c ≠ a) {nd : String × DiffEntry}
    (hc : findAttr attrs nd.1 = some c) {st st2 : Store}
    (h : diffStep attrs st nd = some st2) : st2 a.name = st a.name := by
  have hname : a.name ≠ c.name :=
    name_ne_of_ne hwf ha (findAttr_mem hc) (fun h1 => hca h1.symm)
  rw [diffStep] at h
  by_cases hb1 : (!nd.2.selfModified && nd.2.otherValue.isSome) = true
  · rw [if_pos hb1, rawSetByName_some hc] at h
    injection h with h
    rw [← h, rawSet_apply, if_neg hname]
  · rw [if_neg hb1] at h
    by_cases hb2 : nd.2.selfValue.isSome = true
    · rw [if_pos hb2, rawSetByName_some hc] at h
      injection h with h
      rw [← h, rawSet_apply, if_neg hname]
    · rw [if_neg hb2] at h
      injection h with h
      rw [← h]

theorem diff_fold_frame {attrs : List Attribute} (hwf : WellFormed attrs)
    {a : Attribute} (ha : a ∈ attrs) :
    ∀ (d : List (String × DiffEntry)) (s s1 : Store),
      List.foldlM (diffStep attrs) s d = some s1 →
      (∀ p ∈ d, findAttr attrs p.1 ≠ some a) →
      (∀ p ∈ d, ∃ c, findAttr attrs p.1 = some c) →
      s1 a.name = s a.name := by
  intro d
  induction d with
  | nil =>
      intro s s1 h _ _
      rw [List.foldlM_nil] at h
      simp only [Option.pure_def, Option.some.injEq] at h
      rw [h]
  | cons p t ih =>
      intro s s1 h hno hres
      rw [List.foldlM_cons] at h
      rcases hstep : diffStep attrs s p with _ | st2
      · rw [hstep] at h
        exact absurd h (by simp)
      · rw [hstep] at h
        simp only [Option.bind_eq_bind, Option.some_bind] at h
        obtain ⟨c, hc⟩ := hres p (List.mem_cons_self p t)
        have hca : c ≠ a := fun hcae => (hno p (List.mem_cons_self p t)) (hcae ▸ hc)
        have hfr := diffStep_frame hwf ha hca hc hstep
        have ht := ih st2 s1 h (fun q hq => hno q (List.mem_cons_of_mem p hq))
          (fun q hq => hres q (List.mem_cons_of_mem p hq))
        rw [ht, hfr]

theorem diff_fold_last {attrs : List Attribute} (hwf : WellFormed attrs)
    {a : Attribute} (ha : a ∈ attrs)
    (d1 d2 : List (String × DiffEntry)) (k : String) (e : DiffEntry)
    (hk : findAttr attrs k = some a)
    (hd1 : ∀ p ∈ d1, findAttr attrs p.1 ≠ some a)
    (hd2 : ∀ p ∈ d2, findAttr attrs p.1 ≠ some a)
    (hres1 : ∀ p ∈ d1, ∃ c, findAttr attrs p.1 = some c)
    (hres2 : ∀ p ∈ d2, ∃ c, findAttr attrs p.1 = some c)
    (s s1 : Store)
    (h : List.foldlM (diffStep attrs) s (d1 ++ (k, e) :: d2) = some s1) :
    s1 a.name =
      if !e.selfModified && e.otherValue.isSome then some ⟨e.otherValue, false⟩
      else if e.selfValue.isSome then some ⟨e.selfValue, true⟩
      else s a.name := by
  rw [List.foldlM_append] at h
  rcases hA : List.foldlM (diffStep attrs) s d1 with _ | sA
  · rw [hA] at h; exact absurd h (by simp)
  · rw [hA] at h
    simp only [Option.bind_eq_bind, Option.some_bind, List.foldlM_cons] at h
    have hfrA : sA a.name = s a.name := diff_fold_frame hwf ha d1 s sA hA hd1 hres1
    by_cases hb1 : (!e.selfModified && e.otherValue.isSome) = true
    · rw [diffStep_adopt hb1 hk] at h
      simp only [Option.some_bind] at h
      have hfr := diff_fold_frame hwf ha d2 _ s1 h hd2 hres2
      rw [if_pos hb1, hfr, rawSet_apply, if_pos rfl]
    · rw [if_neg hb1]
      have hb1f : (!e.selfModified && e.otherValue.isSome) = false := by
        cases hx : (!e.selfModified && e.otherValue.isSome)
        · rfl
        · exact absurd hx hb1
      by_cases hb2 : e.selfValue.isSome = true
      · rw [diffStep_keep hb1f hb2 hk] at h
        simp only [Option.some_bind] at h
        have hfr := diff_fold_frame hwf ha d2 _ s1 h hd2 hres2
        rw [if_pos hb2, hfr, rawSet_apply, if_pos rfl]
      · have hb2f : e.selfValue.isSome = false := by
          cases hx : e.selfValue.isSome
          · rfl
          · exact absurd hx hb2
        rw [diffStep_skip hb1f hb2f] at h
        simp only [Option.some_bind] at h
        have hfr := diff_fold_frame hwf ha d2 _ s1 h hd2 hres2
        rw [if_neg hb2, hfr, hfrA]

/-! ### Pointwise behaviour of `update_from_ad` -/

theorem diff_mem {attrs : List Attribute} {s o : Store} {p : String × DiffEntry}
    (hp : p ∈ diff attrs s o) :
    ∃ c ∈ attrs, getter c s ≠ getter c o ∧
      p = (c.ad_key, ⟨getter c s, modified c s, getter c o, modified c o⟩) := by
  rw [diff] at hp
  obtain ⟨c, hcmem, hceq⟩ := List.mem_map.mp hp
  have hcfil := List.mem_filter.mp hcmem
  exact ⟨c, hcfil.1, of_decide_eq_true hcfil.2, hceq.symm⟩

theorem nodup_mem_split {α : Type} [DecidableEq α] {l : List α} (hnd : l.Nodup)
    {a : α} (ha : a ∈ l) : ∃ l1 l2, l = l1 ++ a :: l2 ∧ a ∉ l1 ∧ a ∉ l2 := by
  obtain ⟨l1, l2, rfl⟩ := List.append_of_mem ha
  rw [List.nodup_append] at hnd
  refine ⟨l1, l2, rfl, fun hal1 => ?_, (List.nodup_cons.mp hnd.2.1).1⟩
  exact hnd.2.2 hal1 (List.mem_cons_self a l2)

theorem update_from_ad_none (attrs : List Attribute) (s : Store) :
    update_from_ad attrs none s = some (false, s) := rfl

theorem update_from_ad_some (attrs : List Attribute) (o : Store) (s : Store) :
    update_from_ad attrs (some o) s =
      (resetModified attrs s).bind (fun s1 =>
        ((diff attrs s o).foldlM (diffStep attrs) s1).map (fun s2 => (true, s2))) := rfl

/-- The complete per-attribute case analysis of a successful
`update_from_ad` with a remote counterpart, shared by the reconciliation
and idempotence results. -/
theorem update_from_ad_cases {attrs : List Attribute} (hwf : WellFormed attrs)
    {s o s2 : Store} (h : update_from_ad attrs (some o) s = some (true, s2))
    {a : Attribute} (ha : a ∈ attrs) :
    (getter a s = getter a o → getter a s2 = getter a s ∧ modified a s2 = false) ∧
    (getter a s ≠ getter a o →
      ((modified a s = false ∧ getter a o ≠ none) →
          getter a s2 = getter a o ∧ modified a s2 = false) ∧
      (¬(modified a s = false ∧ getter a o ≠ none) → getter a s ≠ none →
          getter a s2 = getter a s ∧ modified a s2 = true) ∧
      (¬(modified a s = false ∧ getter a o ≠ none) → getter a s = none →
          getter a s2 = none ∧ modified a s2 = false)) := by
  obtain ⟨s1, hreset, hget1, hmod1, _⟩ := resetModified_spec hwf s
  rw [update_from_ad_some, hreset] at h
  simp only [Option.some_bind] at h
  rcases hF : List.foldlM (diffStep attrs) s1 (diff attrs s o) with _ | s2x
  · rw [hF] at h; exact absurd h (by simp)
  · rw [hF] at h
    simp only [Option.map_some', Option.some.injEq, Prod.mk.injEq, true_and] at h
    subst h
    have hres : ∀ p ∈ diff attrs s o, ∃ c, findAttr attrs p.1 = some c := by
      intro p hp
      obtain ⟨c, hcmem, _, hpe⟩ := diff_mem hp
      exact ⟨c, by rw [hpe]; exact findAttr_ad_key hwf hcmem⟩
    constructor
    · intro heq
      have hno : ∀ p ∈ diff attrs s o, findAttr attrs p.1 ≠ some a := by
        intro p hp hfa
        obtain ⟨c, hcmem, hcne, hpe⟩ := diff_mem hp
        rw [hpe] at hfa
        have hcf := findAttr_ad_key hwf hcmem
        rw [hcf] at hfa
        exact hcne (Option.some.inj hfa ▸ heq)
      have hfr := diff_fold_frame hwf ha (diff attrs s o) s1 s2x hF hno hres
      refine ⟨by rw [getter_congr_store hfr, hget1], ?_⟩
      rw [modified_congr_store hfr]
      exact hmod1 a ha
    · intro hne
      have hafil : a ∈ attrs.filter (fun c => decide (getter c s ≠ getter c o)) :=
        List.mem_filter.mpr ⟨ha, decide_eq_true hne⟩
      have hfilsub : ∀ c ∈ attrs.filter (fun c => decide (getter c s ≠ getter c o)),
          c ∈ attrs := fun c hc => (List.mem_filter.mp hc).1
      obtain ⟨l1, l2, hsplit, hal1, hal2⟩ :=
        nodup_mem_split (hwf.1.filter _) hafil
      have hd : diff attrs s o =
          l1.map (fun c => (c.ad_key, (⟨getter c s, modified c s, getter c o,
              modified c o⟩ : DiffEntry))) ++
          (a.ad_key, (⟨getter a s, modified a s, getter a o,
              modified a o⟩ : DiffEntry)) ::
          l2.map (fun c => (c.ad_key, (⟨getter c s, modified c s, getter c o,
              modified c o⟩ : DiffEntry))) := by
        rw [diff, hsplit]
        simp [List.map_append]
      have hsub1 : ∀ c ∈ l1, c ∈ attrs := fun c hc =>
        hfilsub c (hsplit ▸ List.mem_append_of_mem_left _ hc)
      have hsub2 : ∀ c ∈ l2, c ∈ attrs := fun c hc =>
        hfilsub c (hsplit ▸ List.mem_append_of_mem_right _ (List.mem_cons_of_mem _ hc))
      have hside : ∀ (lx : List Attribute), (∀ c ∈ lx, c ∈ attrs) → a ∉ lx →
          ∀ p ∈ lx.map (fun c => (c.ad_key, (⟨getter c s, modified c s, getter c o,
              modified c o⟩ : DiffEntry))), findAttr attrs p.1 ≠ some a := by
        intro lx hsub halx p hp hfa
        obtain ⟨c, hcl, hpe⟩ := List.mem_map.mp hp
        rw [← hpe] at hfa
        have hcf := findAttr_ad_key hwf (hsub c hcl)
        rw [hcf] at hfa
        exact halx (Option.some.inj hfa ▸ hcl)
      have hsideres : ∀ (lx : List Attribute), (∀ c ∈ lx, c ∈ attrs) →
          ∀ p ∈ lx.map (fun c => (c.ad_key, (⟨getter c s, modified c s, getter c o,
              modified c o⟩ : DiffEntry))), ∃ c, findAttr attrs p.1 = some c := by
        intro lx hsub p hp
        obtain ⟨c, hcl, hpe⟩ := List.mem_map.mp hp
        exact ⟨c, by rw [← hpe]; exact findAttr_ad_key hwf (hsub c hcl)⟩
      have hlast := diff_fold_last hwf ha _ _ a.ad_key
        ⟨getter a s, modified a s, getter a o, modified a o⟩
        (findAttr_ad_key hwf ha) (hside l1 hsub1 hal1) (hside l2 hsub2 hal2)
        (hsideres l1 hsub1) (hsideres l2 hsub2) s1 s2x (by rw [← hd]; exact hF)
      dsimp only at hlast
      refine ⟨?_, ?_, ?_⟩
      · rintro ⟨hm, ho⟩
        have hcond : (!modified a s && (getter a o).isSome) = true := by
          rw [hm]
          have hos : (getter a o).isSome = true := Option.ne_none_iff_isSome.mp ho
          rw [hos]
          rfl
        rw [hcond, if_pos rfl] at hlast
        exact ⟨getter_eq_of_entry hlast, modified_eq_of_entry hlast⟩
      · intro hnc hsne
        have hcond : (!modified a s && (getter a o).isSome) = false := by
          cases hmb : modified a s with
          | true => rfl
          | false =>
              have ho : getter a o = none := by
                by_contra hon
                exact hnc ⟨hmb, hon⟩
              rw [ho]
              rfl
        have hself : (getter a s).isSome = true := Option.ne_none_iff_isSome.mp hsne
        rw [hcond, if_neg Bool.false_ne_true, hself, if_pos rfl] at hlast
        exact ⟨getter_eq_of_entry hlast, modified_eq_of_entry hlast⟩
      · intro hnc hsn
        have hcond : (!modified a s && (getter a o).isSome) = false := by
          cases hmb : modified a s with
          | true => rfl
          | false =>
              have ho : getter a o = none := by
                by_contra hon
                exact hnc ⟨hmb, hon⟩
              rw [ho]
              rfl
        have hself : (getter a s).isSome = false := by
          rw [hsn]
          rfl
        rw [hcond, if_neg Bool.false_ne_true, hself, if_neg Bool.false_ne_true] at hlast
        refine ⟨?_, ?_⟩
        · rw [getter_congr_store hlast, hget1, hsn]
        · rw [modified_congr_store hlast]
          exact hmod1 a ha

/-! ### C1: the per-attribute reconciliation resolution -/

/-- **C1**.  When `update_from_ad` finds a remote counterpart, the
per-attribute resolution is: for each attribute in the diff, if the local
modified flag recorded in the diff is false and the remote value is
non-null, the attribute afterwards holds the remote value unmodified;
otherwise, if the local value is non-null, the attribute keeps the local
value remarked modified; every attribute not in the diff keeps its value
with its modified flag cleared. -/
theorem update_from_ad_resolution {attrs : List Attribute} (hwf : WellFormed attrs)
    {s o s2 : Store} (h : update_from_ad attrs (some o) s = some (true, s2))
    {a : Attribute} (ha : a ∈ attrs) :
    (getter a s ≠ getter a o →
        ((modified a s = false ∧ getter a o ≠ none) →
            getter a s2 = getter a o ∧ modified a s2 = false) ∧
        (¬(modified a s = false ∧ getter a o ≠ none) → getter a s ≠ none →
            getter a s2 = getter a s ∧ modified a s2 = true)) ∧
    (getter a s = getter a o → getter a s2 = getter a s ∧ modified a s2 = false) := by
  have hc := update_from_ad_cases hwf h ha
  exact ⟨fun hne => ⟨(hc.2 hne).1, (hc.2 hne).2.1⟩, hc.1⟩

/-- Witness for the C1 theorem: a locally edited `name` beats the remote
value and stays flagged, on the `Company` schema. -/
theorem update_from_ad_resolution_witness :
    WellFormed companyAttrs ∧ name_attribute ∈ companyAttrs ∧
    update_from_ad companyAttrs (some c1Remote) c1Local = some (true, c1After) ∧
    getter name_attribute c1After = getter name_attribute c1Local ∧
    modified name_attribute c1After = true := by
  have hwf : WellFormed companyAttrs := by decide
  have h : update_from_ad companyAttrs (some c1Remote) c1Local = some (true, c1After) := by
    rfl
  have ha : name_attribute ∈ companyAttrs := by decide
  have hr := update_from_ad_resolution hwf h ha
  refine ⟨hwf, ha, h, ?_, ?_⟩
  · exact ((hr.1 (by decide)).2 (by decide) (by decide)).1
  · exact ((hr.1 (by decide)).2 (by decide) (by decide)).2

/-! ### C7: idempotence of reconciliation -/

/-- **C7** (counterexample).  `update_from_ad` is not idempotent: with
`name` locally set to `None` and marked modified while the remote holds
`'v'`, the first call leaves `name = None` (the keep branch requires a
non-null local value) but clears the modified flag, so the second call
adopts the remote value — the two post-states differ. -/
theorem update_from_ad_not_idempotent :
    ((update_from_ad baseObjectAttrs (some c7Remote) c7Local).bind (fun r1 =>
      (update_from_ad baseObjectAttrs (some c7Remote) r1.2).map (fun r2 =>
        (getter name_attribute r1.2, modified name_attribute r1.2,
         getter name_attribute r2.2, modified name_attribute r2.2))))
      = some (none, false, some (AdValue.str "v"), false) ∧
    (none : Option AdValue) ≠ some (AdValue.str "v") :=
  ⟨rfl, by decide⟩

/-- **C7** (amended).  `update_from_ad` is idempotent provided no attribute
is simultaneously marked modified, locally null, and non-null on the remote
record at the time of the first call (in particular whenever every locally
modified attribute holds a non-null value): the second call then leaves
every attribute's value and modified flag exactly as the first call did. -/
theorem update_from_ad_idempotent {attrs : List Attribute} (hwf : WellFormed attrs)
    {s o s1 s2 : Store}
    (hpro : ∀ a ∈ attrs, ¬(modified a s = true ∧ getter a s = none ∧ getter a o ≠ none))
    (h1 : update_from_ad attrs (some o) s = some (true, s1))
    (h2 : update_from_ad attrs (some o) s1 = some (true, s2)) :
    ∀ a ∈ attrs, getter a s2 = getter a s1 ∧ modified a s2 = modified a s1 := by
  intro a ha
  have hc1 := update_from_ad_cases hwf h1 ha
  have hc2 := update_from_ad_cases hwf h2 ha
  by_cases heq : getter a s = getter a o
  · obtain ⟨hg1, hm1⟩ := hc1.1 heq
    have heq2 : getter a s1 = getter a o := by rw [hg1, heq]
    obtain ⟨hg2, hm2⟩ := hc2.1 heq2
    exact ⟨hg2, by rw [hm2, hm1]⟩
  · by_cases hadopt : modified a s = false ∧ getter a o ≠ none
    · obtain ⟨hg1, hm1⟩ := (hc1.2 heq).1 hadopt
      obtain ⟨hg2, hm2⟩ := hc2.1 hg1
      exact ⟨hg2, by rw [hm2, hm1]⟩
    · by_cases hsome : getter a s = none
      · exfalso
        have hmt : modified a s = true := by
          rcases not_and_or.mp hadopt with hm | ho
          · cases hmb : modified a s with
            | true => rfl
            | false => exact absurd hmb hm
          · have hon : getter a o = none := Decidable.not_not.mp ho
            exact absurd (by rw [hsome, hon]) heq
        have hone : getter a o ≠ none := fun hon => heq (by rw [hsome, hon])
        exact hpro a ha ⟨hmt, hsome, hone⟩
      · obtain ⟨hg1, hm1⟩ := (hc1.2 heq).2.1 hadopt hsome
        have hne2 : getter a s1 ≠ getter a o := by rw [hg1]; exact heq
        have hnadopt2 : ¬(modified a s1 = false ∧ getter a o ≠ none) := by
          rintro ⟨hmf, _⟩
          rw [hm1] at hmf
          exact absurd hmf (by decide)
        have hsome1 : getter a s1 ≠ none := by rw [hg1]; exact hsome
        obtain ⟨hg2, hm2⟩ := (hc2.2 hne2).2.1 hnadopt2 hsome1
        exact ⟨hg2, by rw [hm2, hm1]⟩

/-- Witness for the amended C7 theorem: a local edit of `name` to a
non-null value satisfies the proviso, and running reconciliation twice
against the same remote record leaves the state of the first run
unchanged. -/
theorem update_from_ad_idempotent_witness :
    WellFormed baseObjectAttrs ∧
    (∀ a ∈ baseObjectAttrs,
      ¬(modified a c7wLocal = true ∧ getter a c7wLocal = none ∧
        getter a c7wRemote ≠ none)) ∧
    update_from_ad baseObjectAttrs (some c7wRemote) c7wLocal = some (true, c7wS1) ∧
    update_from_ad baseObjectAttrs (some c7wRemote) c7wS1 = some (true, c7wS2) ∧
    (∀ a ∈ baseObjectAttrs,
      getter a c7wS2 = getter a c7wS1 ∧ modified a c7wS2 = modified a c7wS1) := by
  have hwf : WellFormed baseObjectAttrs := by decide
  have hpro : ∀ a ∈ baseObjectAttrs,
      ¬(modified a c7wLocal = true ∧ getter a c7wLocal = none ∧
        getter a c7wRemote ≠ none) := by decide
  have h1 : update_from_ad baseObjectAttrs (some c7wRemote) c7wLocal =
      some (true, c7wS1) := by rfl
  have h2 : update_from_ad baseObjectAttrs (some c7wRemote) c7wS1 =
      some (true, c7wS2) := by rfl
  exact ⟨hwf, hpro, h1, h2, update_from_ad_idempotent hwf hpro h1 h2⟩

/-- **C9**.  `base_search_query` returns `Company`'s own filter fragment
unchanged instead of ANDing it with `BaseObject`'s filter: the
`super(BaseObject)` lookup in the source is an unbound `super` whose
attribute access always raises `AttributeError`, so the `except` fallback
always runs and the ancestor filter claimed by the spec is never combined
in. -/
theorem base_search_query_ignores_ancestor :
    base_search_query Company_base_search_query = Company_base_search_query ∧
    base_search_query Company_base_search_query ≠
      base_search_query_spec BaseObject_base_search_query Company_base_search_query :=
  ⟨rfl, by decide⟩

/-! ### C10: delete -/

/-- **C10**.  `delete` issues exactly the one delete request for the
instance's distinguished name and leaves the in-memory instance fully
unchanged: every attribute's getter value and modified flag, the raw
store, and the parent reference are those of the input instance. -/
theorem delete_frame (attrs : List Attribute) (i : Instance) :
    (delete attrs i).2 = i ∧
    (∀ a : Attribute, getter a (delete attrs i).2.store = getter a i.store ∧
       modified a (delete attrs i).2.store = modified a i.store) ∧
    (delete attrs i).2.parent = i.parent ∧
    (delete attrs i).1 =
      [Request.deleteReq (getterByName attrs "distinguished_name" i.store)] ∧
    ((delete attrs i).1.filter isMutation).length = 1 :=
  ⟨rfl, fun _ => ⟨rfl, rfl⟩, rfl, rfl, rfl⟩

/-! ### C2, C8: the persistence protocol -/

theorem moddict_mem {attrs : List Attribute} {s1 : Store}
    {p : String × Option AdValue} :
    p ∈ moddict attrs s1 ↔
      ∃ a ∈ attrs, modified a s1 = true ∧ p = (a.ad_key, getter a s1) := by
  constructor
  · intro hp
    rw [moddict] at hp
    obtain ⟨a, hamem, hpe⟩ := List.mem_map.mp hp
    have hf := List.mem_filter.mp hamem
    exact ⟨a, hf.1, hf.2, hpe.symm⟩
  · rintro ⟨a, hamem, hmod, rfl⟩
    rw [moddict]
    exact List.mem_map.mpr ⟨a, List.mem_filter.mpr ⟨hamem, hmod⟩, rfl⟩

/-- **C2** (counterexample).  The claim says a failed request propagates
with every modified flag at its pre-`save` value; but `save` runs
reconciliation and, finding no remote counterpart, the fresh-create
marking loop *before* the request, so when `add_s` raises, `ou` is flagged
modified although it was unmodified before `save` was called. -/
theorem save_mutates_before_error :
    modified ou_attribute c2Pre = false ∧
    (match save companyAttrs c2Sess c2Pre with
     | some (.err _ _ st) => some (modified ou_attribute st)
     | _ => none) = some true :=
  ⟨rfl, rfl⟩

/-- **C2** (amended).  If the directory request raised by `save` fails,
the error propagates with the instance in the state produced by `save`'s
pre-request phase (reconciliation, plus fresh-create marking when no
remote counterpart was found) — not necessarily the pre-`save` flags,
because that phase itself rewrites them.  The post-success flag-clearing
has not run: the modified flags at the moment of propagation still
describe exactly the change set of the failed request, so a retry issues
the same request. -/
theorem save_error_state {attrs : List Attribute} {sess : Session} {s : Store}
    {tr : List Request} {m : String} {st : Store}
    (h : save attrs sess s = some (.err tr m st)) :
    preRequest attrs sess.lookup s = some st ∧ sess.mutationError = some m ∧
    tr = [Request.searchReq (getterByName attrs "distinguished_name" s),
      if (getterByName attrs "object_guid" st).isNone then
        Request.addReq (getterByName attrs "distinguished_name" st)
          (moddict attrs st)
      else
        Request.modifyReq (getterByName attrs "distinguished_name" st)
          ((moddict attrs st).map (fun p => (MOD_REPLACE, p.1, p.2)))] := by
  unfold save at h
  dsimp only at h
  rcases hpre : preRequest attrs sess.lookup s with _ | s1
  · rw [hpre] at h
    exact absurd h (by simp)
  · rw [hpre] at h
    simp only [Option.some_bind] at h
    rcases hme : sess.mutationError with _ | m2
    · rw [hme] at h
      rcases hr2 : resetModified attrs s1 with _ | s2
      · rw [hr2] at h
        exact absurd h (by simp)
      · rw [hr2] at h
        simp only [Option.some_bind] at h
        rcases hu : update_from_ad attrs sess.lookupAfter s2 with _ | rr
        · rw [hu] at h
          exact absurd h (by simp)
        · rw [hu] at h
          simp only [Option.map_some', Option.some.injEq] at h
          exact absurd h (by simp)
    · rw [hme] at h
      simp only [Option.some.injEq, SaveResult.err.injEq] at h
      obtain ⟨htr, hm2, hst⟩ := h
      subst hm2
      subst hst
      exact ⟨rfl, rfl, htr.symm⟩

/-- Witness for the amended C2 theorem at the failing `Company` save. -/
theorem save_error_state_witness :
    save companyAttrs c2Sess c2Pre =
      some (.err c2Trace "ALREADY_EXISTS" c2AtRaise) ∧
    preRequest companyAttrs c2Sess.lookup c2Pre = some c2AtRaise ∧
    c2Sess.mutationError = some "ALREADY_EXISTS" ∧
    c2Trace = [Request.searchReq (getterByName companyAttrs "distinguished_name" c2Pre),
      if (getterByName companyAttrs "object_guid" c2AtRaise).isNone then
        Request.addReq (getterByName companyAttrs "distinguished_name" c2AtRaise)
          (moddict companyAttrs c2AtRaise)
      else
        Request.modifyReq (getterByName companyAttrs "distinguished_name" c2AtRaise)
          ((moddict companyAttrs c2AtRaise).map (fun p => (MOD_REPLACE, p.1, p.2)))] := by
  have h : save companyAttrs c2Sess c2Pre =
      some (.err c2Trace "ALREADY_EXISTS" c2AtRaise) := by rfl
  exact ⟨h, save_error_state h⟩

/-- **C8**.  Any completed `save` run has issued exactly one directory
mutation, chosen by the remote identifier at the pre-request state: an add
of the distinguished name with the change set when `object_guid` is null,
otherwise a modify with exactly one `MOD_REPLACE` per modified attribute;
and the change set contains one entry per modified attribute and nothing
else. -/
theorem save_single_mutation {attrs : List Attribute} {sess : Session} {s : Store}
    {r : SaveResult} (h : save attrs sess s = some r) :
    ∃ s1, preRequest attrs sess.lookup s = some s1 ∧
      (traceOf r).filter isMutation =
        [if (getterByName attrs "object_guid" s1).isNone then
            Request.addReq (getterByName attrs "distinguished_name" s1)
              (moddict attrs s1)
          else
            Request.modifyReq (getterByName attrs "distinguished_name" s1)
              ((moddict attrs s1).map (fun p => (MOD_REPLACE, p.1, p.2)))] ∧
      (∀ p ∈ moddict attrs s1, ∃ a ∈ attrs, modified a s1 = true ∧
          p = (a.ad_key, getter a s1)) ∧
      (∀ a ∈ attrs, modified a s1 = true → (a.ad_key, getter a s1) ∈ moddict attrs s1) := by
  unfold save at h
  dsimp only at h
  rcases hpre : preRequest attrs sess.lookup s with _ | s1
  · rw [hpre] at h
    exact absurd h (by simp)
  · rw [hpre] at h
    simp only [Option.some_bind] at h
    refine ⟨s1, rfl, ?_, ?_, ?_⟩
    · rcases hme : sess.mutationError with _ | m2
      · rw [hme] at h
        rcases hr2 : resetModified attrs s1 with _ | s2
        · rw [hr2] at h
          exact absurd h (by simp)
        · rw [hr2] at h
          simp only [Option.some_bind] at h
          rcases hu : update_from_ad attrs sess.lookupAfter s2 with _ | rr
          · rw [hu] at h
            exact absurd h (by simp)
          · rw [hu] at h
            simp only [Option.map_some', Option.some.injEq] at h
            subst h
            by_cases hg : (getterByName attrs "object_guid" s1).isNone = true
            · rw [if_pos hg]
              simp [traceOf, List.filter, isMutation]
            · rw [if_neg hg]
              simp [traceOf, List.filter, isMutation]
      · rw [hme] at h
        simp only [Option.some.injEq] at h
        subst h
        by_cases hg : (getterByName attrs "object_guid" s1).isNone = true
        · rw [if_pos hg]
          simp [traceOf, List.filter, isMutation]
        · rw [if_neg hg]
          simp [traceOf, List.filter, isMutation]
    · intro p hp
      exact moddict_mem.mp hp
    · intro a hamem hmod
      exact moddict_mem.mpr ⟨a, hamem, hmod, rfl⟩

/-- Witness for the C8 theorem at a successful fresh-create `Company`
save. -/
theorem save_single_mutation_witness :
    save companyAttrs c8Sess c8Pre = some c8Result ∧
    (∃ s1, preRequest companyAttrs c8Sess.lookup c8Pre = some s1 ∧
      (traceOf c8Result).filter isMutation =
        [if (getterByName companyAttrs "object_guid" s1).isNone then
            Request.addReq (getterByName companyAttrs "distinguished_name" s1)
              (moddict companyAttrs s1)
          else
            Request.modifyReq (getterByName companyAttrs "distinguished_name" s1)
              ((moddict companyAttrs s1).map (fun p => (MOD_REPLACE, p.1, p.2)))] ∧
      (∀ p ∈ moddict companyAttrs s1, ∃ a ∈ companyAttrs, modified a s1 = true ∧
          p = (a.ad_key, getter a s1)) ∧
      (∀ a ∈ companyAttrs, modified a s1 = true →
          (a.ad_key, getter a s1) ∈ moddict companyAttrs s1)) := by
  have h : save companyAttrs c8Sess c8Pre = some c8Result := by rfl
  exact ⟨h, save_single_mutation h⟩

end LitedeskAD
